import Mathlib

/-!
Verification development for the Arduino language-server LSP proxy
(`handler/handler.go`, `ls/ls_formatter.go`).

The Go handler mediates between an IDE speaking in `.ino` coordinates and a
clangd child speaking in terms of a single synthetic translation unit
(`<sketch>.ino.cpp`).  This file embeds the handler's data model and the
operations under scrutiny as executable Lean definitions and proves the
stated properties about them.

External collaborators of the handler (the `sourcemapper` package, the
`go-paths-helper` path library, `go-lsp` range utilities) are not part of
the sources under verification; where the handler consumes them they are
modelled from the specification as explicit oracle fields or small
string-level path functions, each marked `Modelled from the spec:` in its
doc comment.
-/

namespace ArduinoLS

/-- An LSP position: zero-based line and character. -/
structure Pos where
  line : Nat
  character : Nat
deriving DecidableEq, Repr

/-- An LSP range: start and stop positions. -/
structure Rng where
  start : Pos
  stop : Pos
deriving DecidableEq, Repr

/-- The zero range, mirroring `lsp.NilRange`. -/
def nilRange : Rng := ⟨⟨0, 0⟩, ⟨0, 0⟩⟩

/-- Helper for `pathExt`: scan the reversed character list of a path,
accumulating until the first dot; a path separator before any dot means
no extension.  Mirrors Go `filepath.Ext` as used by `DocumentURI.Ext()`. -/
def pathExtAux : List Char → List Char → String
  | [], _ => ""
  | c :: rest, acc =>
    if c = '/' then ""
    else if c = '.' then String.mk ('.' :: acc)
    else pathExtAux rest (c :: acc)

/-- The extension of a path (including the dot), e.g.
`pathExt "/sketch/Blink.ino" = ".ino"` and
`pathExt "/build/sketch/Blink.ino.cpp" = ".cpp"`.
Modelled from the spec: `DocumentURI.Ext()` of the external `lsp` package,
which returns the final-dot suffix of the URI path. -/
def pathExt (s : String) : String := pathExtAux s.data.reverse []

example : pathExt "/sketch/Blink.ino" = ".ino" := by decide
example : pathExt "/build/sketch/Blink.ino.cpp" = ".cpp" := by decide
example : pathExt "/not-ino" = "" := by decide

/-! ## Document tracking (`didOpen` / `didClose`, handler.go lines 661-710)

`InoHandler.docs` is a map keyed by canonical URI; only its key set matters
for the claims, so it is carried as a duplicate-free list of URIs.
`sketchTrackedFilesCount` is a Go `int`, carried as `Int`. -/

/-- The tracked-documents portion of the handler state:
`docs` (key set of `handler.docs`) and `count`
(`handler.sketchTrackedFilesCount`). -/
structure TrackedDocs where
  docs : List String
  count : Int
deriving DecidableEq, Repr

/-- The handler state when no document has been opened yet
(`NewInoHandler`: empty map, zero count). -/
def initialDocs : TrackedDocs := ⟨[], 0⟩

/-- What the message router forwards to clangd after handling a
`didOpen`/`didClose` notification. -/
inductive Forwarded where
  /-- Nothing is forwarded (`return nil, nil` branch). -/
  | nothing
  /-- A `didOpen` of the synthetic unit `build_sketch_cpp`. -/
  | syntheticOpen
  /-- A `didClose` of the synthetic unit `build_sketch_cpp`. -/
  | syntheticClose
  /-- A per-file `didOpen` with the URI rewritten to the build mirror. -/
  | openDoc (uri : String)
  /-- A `didClose` carrying the given URI. -/
  | closeDoc (uri : String)
deriving DecidableEq, Repr

/-- Environment for document tracking: `mirror` abstracts
`ino2cppDocumentURI` on non-`.ino` files (sketch-relative rewrite into the
build tree; identity outside the sketch).  `.ino` files are handled
explicitly (they always map to the synthetic unit). -/
structure DocEnv where
  mirror : String → String

/-- `handler.didOpen` (handler.go lines 661-684) combined with the routing
decision in `HandleMessageFromIDE`: the document is inserted into the
tracked map; for a `.ino` file the counter is incremented and the synthetic
unit `didOpen` is forwarded only when the incremented counter equals 1. -/
def didOpenStep (env : DocEnv) (s : TrackedDocs) (uri : String) :
    TrackedDocs × Forwarded :=
  let docs := if uri ∈ s.docs then s.docs else uri :: s.docs
  if pathExt uri = ".ino" then
    let c := s.count + 1
    if c ≠ 1 then (⟨docs, c⟩, Forwarded.nothing)
    else (⟨docs, c⟩, Forwarded.syntheticOpen)
  else
    (⟨docs, s.count⟩, Forwarded.openDoc (env.mirror uri))

/-- `handler.didClose` (handler.go lines 686-710) combined with the routing
in `HandleMessageFromIDE`.  A tracked document is removed; for a `.ino`
file the counter is decremented and a synthetic-unit `didClose` is
forwarded only when it reaches 0.  For an untracked URI `didClose` returns
an error, but the error branch in `HandleMessageFromIDE`
(`if res, e := handler.didClose(p); e != nil {}`) is empty, so control
falls through and the ORIGINAL notification is forwarded to clangd with
its untranslated URI. -/
def didCloseStep (env : DocEnv) (s : TrackedDocs) (uri : String) :
    TrackedDocs × Forwarded :=
  if uri ∈ s.docs then
    let docs := s.docs.erase uri
    if pathExt uri = ".ino" then
      let c := s.count - 1
      if c ≠ 0 then (⟨docs, c⟩, Forwarded.nothing)
      else (⟨docs, c⟩, Forwarded.syntheticClose)
    else
      (⟨docs, s.count⟩, Forwarded.closeDoc (env.mirror uri))
  else
    (s, Forwarded.closeDoc uri)

/-- A lifecycle notification from the IDE. -/
inductive DocEvent where
  | openEv (uri : String)
  | closeEv (uri : String)
deriving DecidableEq, Repr

/-- The URI carried by a lifecycle notification. -/
def DocEvent.uri : DocEvent → String
  | .openEv u => u
  | .closeEv u => u

/-- The transition taken by one notification. -/
def docStep (env : DocEnv) (s : TrackedDocs) : DocEvent → TrackedDocs × Forwarded
  | .openEv u => didOpenStep env s u
  | .closeEv u => didCloseStep env s u

/-- Run a sequence of `didOpen`/`didClose` notifications from a state,
collecting the forwarded messages in order. -/
def runDocEvents (env : DocEnv) (s : TrackedDocs) :
    List DocEvent → TrackedDocs × List Forwarded
  | [] => (s, [])
  | e :: rest =>
    let p := docStep env s e
    let q := runDocEvents env p.1 rest
    (q.1, p.2 :: q.2)

/-- Number of synthetic-unit `didOpen` messages in a forwarded trace. -/
def countSynthOpens (l : List Forwarded) : Nat :=
  l.countP (fun f => f = Forwarded.syntheticOpen)

/-- Number of synthetic-unit `didClose` messages in a forwarded trace. -/
def countSynthCloses (l : List Forwarded) : Nat :=
  l.countP (fun f => f = Forwarded.syntheticClose)

/-- Number of tracked `.ino` documents in a URI list. -/
def inoCount (l : List String) : Nat :=
  (l.filter (fun u => pathExt u = ".ino")).length

/-- 1 when the synthetic unit is currently open at clangd, i.e. when the
`.ino` counter is nonzero. -/
def synthInd (s : TrackedDocs) : Nat := if s.count = 0 then 0 else 1

theorem inoCount_erase (l : List String) (u : String) (hu : u ∈ l)
    (h : pathExt u = ".ino") : inoCount (l.erase u) + 1 = inoCount l := by
  induction l with
  | nil => cases hu
  | cons a t ih =>
    by_cases hau : a = u
    · subst hau
      simp [List.erase_cons, inoCount, h]
    · have hut : u ∈ t := by
        cases List.mem_cons.mp hu with
        | inl h2 => exact absurd h2.symm hau
        | inr h2 => exact h2
      have : (a == u) = false := by
        simp [hau]
      by_cases ha : pathExt a = ".ino" <;>
        simp_all [List.erase_cons, inoCount, List.filter_cons]

theorem didOpenStep_ino (env : DocEnv) (s : TrackedDocs) (uri : String)
    (h : pathExt uri = ".ino") :
    didOpenStep env s uri =
      (⟨if uri ∈ s.docs then s.docs else uri :: s.docs, s.count + 1⟩,
       if s.count = 0 then Forwarded.syntheticOpen else Forwarded.nothing) := by
  by_cases hc : s.count = 0
  · simp [didOpenStep, h, hc]
  · have h1 : s.count + 1 ≠ 1 := by omega
    simp [didOpenStep, h, hc, h1]

theorem didCloseStep_ino_mem (env : DocEnv) (s : TrackedDocs) (uri : String)
    (h : pathExt uri = ".ino") (hmem : uri ∈ s.docs) :
    didCloseStep env s uri =
      (⟨s.docs.erase uri, s.count - 1⟩,
       if s.count = 1 then Forwarded.syntheticClose else Forwarded.nothing) := by
  by_cases hc : s.count = 1
  · simp [didCloseStep, h, hmem, hc]
  · have h1 : s.count - 1 ≠ 0 := by omega
    simp [didCloseStep, h, hmem, hc, h1]

theorem didCloseStep_untracked (env : DocEnv) (s : TrackedDocs)
    (uri : String) (hmem : uri ∉ s.docs) :
    didCloseStep env s uri = (s, Forwarded.closeDoc uri) := by
  simp [didCloseStep, hmem]

theorem countSynthOpens_cons (f : Forwarded) (l : List Forwarded) :
    countSynthOpens (f :: l) =
      countSynthOpens l + (if f = Forwarded.syntheticOpen then 1 else 0) := by
  simp [countSynthOpens, List.countP_cons]

theorem countSynthCloses_cons (f : Forwarded) (l : List Forwarded) :
    countSynthCloses (f :: l) =
      countSynthCloses l + (if f = Forwarded.syntheticClose then 1 else 0) := by
  simp [countSynthCloses, List.countP_cons]

theorem runDocEvents_balance (events : List DocEvent) (env : DocEnv) :
    ∀ s : TrackedDocs,
    (∀ e ∈ events, pathExt (DocEvent.uri e) = ".ino") →
    (inoCount s.docs : Int) ≤ s.count →
    (inoCount (runDocEvents env s events).1.docs : Int) ≤
      (runDocEvents env s events).1.count ∧
    countSynthOpens (runDocEvents env s events).2 + synthInd s =
      countSynthCloses (runDocEvents env s events).2 +
        synthInd (runDocEvents env s events).1 := by
  induction events with
  | nil =>
    intro s _ hinv
    simpa [runDocEvents, countSynthOpens, countSynthCloses] using hinv
  | cons e rest ih =>
    intro s hall hinv
    have he := hall e (List.mem_cons_self e rest)
    have hrest : ∀ x ∈ rest, pathExt (DocEvent.uri x) = ".ino" :=
      fun x hx => hall x (List.mem_cons_of_mem e hx)
    have hc0 : (0 : Int) ≤ s.count := le_trans (Int.ofNat_nonneg _) hinv
    cases e with
    | openEv u =>
      have heu : pathExt u = ".ino" := he
      have hinv2 :
          (inoCount (if u ∈ s.docs then s.docs else u :: s.docs) : Int) ≤
            s.count + 1 := by
        by_cases hm : u ∈ s.docs
        · rw [if_pos hm]; omega
        · rw [if_neg hm]
          have : inoCount (u :: s.docs) = inoCount s.docs + 1 := by
            simp [inoCount, List.filter_cons, heu]
          omega
      have hrun := ih ⟨if u ∈ s.docs then s.docs else u :: s.docs,
        s.count + 1⟩ hrest hinv2
      have hru : runDocEvents env s (DocEvent.openEv u :: rest) =
          ((runDocEvents env ⟨if u ∈ s.docs then s.docs else u :: s.docs,
              s.count + 1⟩ rest).1,
           (if s.count = 0 then Forwarded.syntheticOpen
            else Forwarded.nothing) ::
           (runDocEvents env ⟨if u ∈ s.docs then s.docs else u :: s.docs,
              s.count + 1⟩ rest).2) := by
        simp only [runDocEvents, docStep, didOpenStep_ino env s u heu]
      rw [hru]
      dsimp only
      obtain ⟨hinv3, hbal⟩ := hrun
      refine ⟨hinv3, ?_⟩
      rw [countSynthOpens_cons, countSynthCloses_cons]
      have e2 : synthInd ⟨if u ∈ s.docs then s.docs else u :: s.docs,
          s.count + 1⟩ = 1 := by
        simp only [synthInd]
        rw [if_neg (by omega : ¬ (s.count + 1 = 0))]
      rw [e2] at hbal
      by_cases hz : s.count = 0
      · have e1 : synthInd s = 0 := by simp [synthInd, hz]
        rw [if_pos hz, e1]
        simp only [show (Forwarded.syntheticOpen = Forwarded.syntheticOpen) =
            True from by simp,
          show (Forwarded.syntheticOpen = Forwarded.syntheticClose) =
            False from by simp, if_true, if_false]
        omega
      · have e1 : synthInd s = 1 := by simp [synthInd, hz]
        rw [if_neg hz, e1]
        simp only [show (Forwarded.nothing = Forwarded.syntheticOpen) =
            False from by simp,
          show (Forwarded.nothing = Forwarded.syntheticClose) =
            False from by simp, if_false]
        omega
    | closeEv u =>
      have heu : pathExt u = ".ino" := he
      by_cases hmem : u ∈ s.docs
      · have hcard : inoCount (s.docs.erase u) + 1 = inoCount s.docs :=
          inoCount_erase s.docs u hmem heu
        have hge1 : (1 : Int) ≤ s.count := by omega
        have hinv2 : (inoCount (s.docs.erase u) : Int) ≤ s.count - 1 := by
          omega
        have hrun := ih ⟨s.docs.erase u, s.count - 1⟩ hrest hinv2
        have hru : runDocEvents env s (DocEvent.closeEv u :: rest) =
            ((runDocEvents env ⟨s.docs.erase u, s.count - 1⟩ rest).1,
             (if s.count = 1 then Forwarded.syntheticClose
              else Forwarded.nothing) ::
             (runDocEvents env ⟨s.docs.erase u, s.count - 1⟩ rest).2) := by
          simp only [runDocEvents, docStep,
            didCloseStep_ino_mem env s u heu hmem]
        rw [hru]
        dsimp only
        obtain ⟨hinv3, hbal⟩ := hrun
        refine ⟨hinv3, ?_⟩
        rw [countSynthOpens_cons, countSynthCloses_cons]
        by_cases hz : s.count = 1
        · have e1 : synthInd s = 1 := by simp [synthInd, hz]
          have e2 : synthInd ⟨s.docs.erase u, s.count - 1⟩ = 0 := by
            simp only [synthInd]
            rw [if_pos (by omega : s.count - 1 = 0)]
          rw [e2] at hbal
          rw [if_pos hz, e1]
          simp only [show (Forwarded.syntheticClose = Forwarded.syntheticOpen) =
              False from by simp,
            show (Forwarded.syntheticClose = Forwarded.syntheticClose) =
              True from by simp, if_true, if_false]
          omega
        · have e1 : synthInd s = 1 := by
            simp only [synthInd]
            rw [if_neg (by omega : ¬ (s.count = 0))]
          have e2 : synthInd ⟨s.docs.erase u, s.count - 1⟩ = 1 := by
            simp only [synthInd]
            rw [if_neg (by omega : ¬ (s.count - 1 = 0))]
          rw [e2] at hbal
          rw [if_neg hz, e1]
          simp only [show (Forwarded.nothing = Forwarded.syntheticOpen) =
              False from by simp,
            show (Forwarded.nothing = Forwarded.syntheticClose) =
              False from by simp, if_false]
          omega
      · have hrun := ih s hrest hinv
        have hru : runDocEvents env s (DocEvent.closeEv u :: rest) =
            ((runDocEvents env s rest).1,
             Forwarded.closeDoc u :: (runDocEvents env s rest).2) := by
          simp only [runDocEvents, docStep,
            didCloseStep_untracked env s u hmem]
        rw [hru]
        dsimp only
        obtain ⟨hinv3, hbal⟩ := hrun
        refine ⟨hinv3, ?_⟩
        rw [countSynthOpens_cons, countSynthCloses_cons]
        simp only [show (Forwarded.closeDoc u = Forwarded.syntheticOpen) =
            False from by simp,
          show (Forwarded.closeDoc u = Forwarded.syntheticClose) =
            False from by simp, if_false]
        omega

/-- Claim C1: over `.ino` documents, the handler forwards a `didOpen` of
the synthetic unit exactly when the tracked `.ino` count goes from 0 to 1,
forwards a `didClose` of the synthetic unit exactly when a tracked `.ino`
close takes the count from 1 to 0, forwards nothing when the count lands
elsewhere, and consequently along every sequence of `.ino`
`didOpen`/`didClose` notifications from the initial state clangd has seen
at most one more synthetic-unit `didOpen` than `didClose` (and never more
`didClose`s than `didOpen`s): at most one open synthetic unit at any
time. -/
theorem c1_synthetic_unit_gating :
    (∀ env s uri, pathExt uri = ".ino" →
      (((didOpenStep env s uri).2 = Forwarded.syntheticOpen) ↔ s.count = 0) ∧
      (((didOpenStep env s uri).2 = Forwarded.nothing) ↔ s.count ≠ 0)) ∧
    (∀ env s uri, pathExt uri = ".ino" → uri ∈ s.docs →
      (((didCloseStep env s uri).2 = Forwarded.syntheticClose) ↔
        s.count = 1) ∧
      (((didCloseStep env s uri).2 = Forwarded.nothing) ↔ s.count ≠ 1)) ∧
    (∀ env events, (∀ e ∈ events, pathExt (DocEvent.uri e) = ".ino") →
      countSynthCloses (runDocEvents env initialDocs events).2 ≤
        countSynthOpens (runDocEvents env initialDocs events).2 ∧
      countSynthOpens (runDocEvents env initialDocs events).2 ≤
        countSynthCloses (runDocEvents env initialDocs events).2 + 1) := by
  refine ⟨?_, ?_, ?_⟩
  · intro env s uri h
    rw [didOpenStep_ino env s uri h]
    by_cases hc : s.count = 0 <;> simp [hc]
  · intro env s uri h hmem
    rw [didCloseStep_ino_mem env s uri h hmem]
    by_cases hc : s.count = 1 <;> simp [hc]
  · intro env events hall
    have h := runDocEvents_balance events env initialDocs hall
      (by simp [initialDocs, inoCount])
    have hbal := h.2
    have hind : synthInd initialDocs = 0 := by
      simp [synthInd, initialDocs]
    rw [hind] at hbal
    have hle : synthInd (runDocEvents env initialDocs events).1 ≤ 1 := by
      simp only [synthInd]
      split <;> omega
    omega
/-- Witness for C1 at concrete inputs: opening `/sk/a.ino` in the initial
state forwards the synthetic-unit `didOpen`; closing it from the resulting
state forwards the synthetic-unit `didClose`; the trace doing both keeps
the open/close balance within the bound. -/
theorem c1_synthetic_unit_gating_witness :
    ((didOpenStep ⟨id⟩ initialDocs "/sk/a.ino").2 =
        Forwarded.syntheticOpen ↔ (initialDocs).count = 0) ∧
    ((didCloseStep ⟨id⟩ ⟨["/sk/a.ino"], 1⟩ "/sk/a.ino").2 =
        Forwarded.syntheticClose ↔ (1 : Int) = 1) ∧
    countSynthOpens (runDocEvents ⟨id⟩ initialDocs
        [DocEvent.openEv "/sk/a.ino", DocEvent.closeEv "/sk/a.ino"]).2 ≤
      countSynthCloses (runDocEvents ⟨id⟩ initialDocs
        [DocEvent.openEv "/sk/a.ino", DocEvent.closeEv "/sk/a.ino"]).2 + 1 :=
  ⟨(c1_synthetic_unit_gating.1 ⟨id⟩ initialDocs "/sk/a.ino"
      (by decide)).1,
   ((c1_synthetic_unit_gating.2.1 ⟨id⟩ ⟨["/sk/a.ino"], 1⟩ "/sk/a.ino"
      (by decide) (by decide)).1),
   (c1_synthetic_unit_gating.2.2 ⟨id⟩
      [DocEvent.openEv "/sk/a.ino", DocEvent.closeEv "/sk/a.ino"]
      (by intro e he; fin_cases he <;> decide)).2⟩

/-! ## `didChange` on a `.ino` document (handler.go lines 732-805)

The incremental source mapper lives in the external `sourcemapper` package;
it is modelled from the specification (§4.1): each applied content change
rewrites the stored synthetic text and the line maps (abstracted below as
an opaque `core` evolved by `stepCore`) and bumps `cpp_text.version` by
exactly 1, returning a dirty flag. -/

/-- An LSP `TextDocumentContentChangeEvent` with its range present (the
handler dereferences `*inoChange.Range`, and the announced sync mode is
incremental). -/
structure TextChange where
  range : Rng
  rangeLength : Option Nat
  text : String
deriving DecidableEq, Repr

/-- `a` is at or before `b`.
Modelled from the spec: the position order of the external `lsp`
package (lexicographic on line then character). -/
def posLe (a b : Pos) : Bool :=
  a.line < b.line || (a.line = b.line && a.character ≤ b.character)

/-- Two ranges overlap.
Modelled from the spec: `lsp.Range.Overlaps` of the external `lsp`
package (the ranges intersect). -/
def rangeOverlaps (a b : Rng) : Bool :=
  posLe a.start b.stop && posLe b.start a.stop

/-- Modelled from the spec: the `sourcemapper.InoMapper` state consumed by
`didChange`.  `core` is the structural content (stored cpp text plus
forward/inverse line maps), evolved by `stepCore` (§4.1 steps 2-3 and the
dirty result of step 5); `rangeOf` is `InoToCppLSPRangeOk`; `version` is
`CppText.Version` (§4.1 step 4 bumps it by exactly 1 per applied content
change). -/
structure InoCppMapper (α : Type) where
  core : α
  version : Int
  rangeOf : α → String → Rng → Option Rng
  stepCore : α → String → TextChange → α × Bool

/-- Modelled from the spec: `InoMapper.ApplyTextChange` (§4.1).  Applies
one content change to the structural core and bumps the version by exactly
one, returning the dirty flag. -/
def applyTextChange {α : Type} (m : InoCppMapper α) (uri : String)
    (ch : TextChange) : InoCppMapper α × Bool :=
  let p := m.stepCore m.core uri ch
  ({ m with core := p.1, version := m.version + 1 }, p.2)

/-- The handler state consumed by `didChange`: tracked documents, the
mapper, the cached top-level symbol ranges (`handler.buildSketchSymbols`,
in cpp coordinates), the rebuild-scheduled flag
(`scheduleRebuildEnvironment` sets a deadline; only whether it was set
matters here), the synthetic-unit path, and the URI rewrite used for
non-`.ino` files. -/
structure ChangeState (α : Type) where
  docs : List String
  mapper : InoCppMapper α
  buildSketchSymbols : List Rng
  rebuildScheduled : Bool
  buildSketchCpp : String
  mirror : String → String

/-- The `.ino` branch loop of `handler.didChange` (handler.go lines
745-780): for each content change, resolve its range through the mapper
(failure aborts with an error), detect dirty edits by overlap with the
cached symbol ranges and by the mapper's own dirty flag (either schedules
a rebuild), apply the change to the mapper, and emit the translated cpp
change. -/
def convertInoChanges {α : Type} (uri : String) :
    ChangeState α → List TextChange →
      Option (List TextChange × ChangeState α)
  | st, [] => some ([], st)
  | st, ch :: rest =>
    match st.mapper.rangeOf st.mapper.core uri ch.range with
    | none => none
    | some cppRange =>
      let dirtySym := st.buildSketchSymbols.any
        (fun r => rangeOverlaps r cppRange)
      let p := applyTextChange st.mapper uri ch
      let st2 : ChangeState α :=
        { st with mapper := p.1,
                  rebuildScheduled :=
                    st.rebuildScheduled || (dirtySym || p.2) }
      match convertInoChanges uri st2 rest with
      | none => none
      | some q => some ({ ch with range := cppRange } :: q.1, q.2)

/-- The `didChange` notification forwarded to clangd. -/
structure CppDidChange where
  uri : String
  version : Int
  changes : List TextChange
deriving DecidableEq, Repr

/-- `handler.didChange` (handler.go lines 732-805) combined with the
routing in `HandleMessageFromIDE`: an untracked URI fails (the router
returns the error and forwards nothing); a `.ino` document has each change
translated and applied, and the forwarded notification carries the
synthetic-unit URI and the mapper version read after the loop; any other
document is forwarded with only the URI rewritten at the IDE version.
(The update of the tracked document's own text via
`textutils.ApplyLSPTextDocumentContentChangeEvent` does not feed any claim
and is not represented.) -/
def didChangeIno {α : Type} (st : ChangeState α) (uri : String)
    (ideVersion : Int) (changes : List TextChange) :
    Option (CppDidChange × ChangeState α) :=
  if uri ∈ st.docs then
    if pathExt uri = ".ino" then
      match convertInoChanges uri st changes with
      | none => none
      | some p =>
        some ({ uri := st.buildSketchCpp, version := p.2.mapper.version,
                changes := p.1 }, p.2)
    else
      some ({ uri := st.mirror uri, version := ideVersion,
              changes := changes }, st)
  else none

theorem convertInoChanges_spec {α : Type} (uri : String)
    (changes : List TextChange) :
    ∀ (st : ChangeState α) cpp st2,
    convertInoChanges uri st changes = some (cpp, st2) →
    st2.mapper.version = st.mapper.version + changes.length ∧
    cpp.length = changes.length ∧
    cpp.map (fun c => c.text) = changes.map (fun c => c.text) ∧
    st2.buildSketchCpp = st.buildSketchCpp := by
  induction changes with
  | nil =>
    intro st cpp st2 h
    simp only [convertInoChanges, Option.some.injEq, Prod.mk.injEq] at h
    obtain ⟨h1, h2⟩ := h
    subst h1; subst h2
    simp
  | cons ch rest ih =>
    intro st cpp st2 h
    simp only [convertInoChanges] at h
    rcases hr : st.mapper.rangeOf st.mapper.core uri ch.range with _ | cppRange
    · rw [hr] at h; cases h
    · rw [hr] at h
      dsimp only at h
      rcases hc : convertInoChanges uri
          { st with
            mapper := (applyTextChange st.mapper uri ch).1,
            rebuildScheduled := st.rebuildScheduled ||
              (st.buildSketchSymbols.any
                (fun r => rangeOverlaps r cppRange) ||
               (applyTextChange st.mapper uri ch).2) } rest
          with _ | q
      · rw [hc] at h; cases h
      · rw [hc] at h
        simp only [Option.some.injEq, Prod.mk.injEq] at h
        obtain ⟨h1, h2⟩ := h
        subst h2
        have := ih _ q.1 q.2 (by rw [hc])
        obtain ⟨v1, v2, v3, v4⟩ := this
        have hver : (applyTextChange st.mapper uri ch).1.version =
            st.mapper.version + 1 := rfl
        constructor
        · rw [v1, hver]
          simp only [List.length_cons]
          push_cast
          ring
        constructor
        · rw [← h1]; simp [v2]
        constructor
        · rw [← h1]; simp [v3]
        · exact v4

/-- Claim C2 (amended): for an inbound `didChange` on a tracked `.ino`
document whose changes all translate, the synthetic unit's version is
incremented by exactly the number of content changes the notification
carries (spec §4.1: `ApplyTextChange` bumps the version by 1 per content
change, and the handler applies it once per change), and the single
forwarded `didChange` targets the synthetic unit and carries all N
translated changes (same count, same texts, same order) at the version
read after all increments. -/
theorem c2_version_per_change {α : Type} (st : ChangeState α)
    (uri : String) (ideVersion : Int) (changes : List TextChange)
    (r : CppDidChange × ChangeState α)
    (hext : pathExt uri = ".ino")
    (h : didChangeIno st uri ideVersion changes = some r) :
    r.1.version = st.mapper.version + changes.length ∧
    r.2.mapper.version = st.mapper.version + changes.length ∧
    r.1.changes.length = changes.length ∧
    r.1.changes.map (fun c => c.text) = changes.map (fun c => c.text) ∧
    r.1.uri = st.buildSketchCpp := by
  by_cases hmem : uri ∈ st.docs
  · rw [didChangeIno, if_pos hmem, if_pos hext] at h
    rcases hc : convertInoChanges uri st changes with _ | p
    · rw [hc] at h; cases h
    · rw [hc] at h
      simp only [Option.some.injEq] at h
      subst h
      have := convertInoChanges_spec uri changes st p.1 p.2 (by rw [hc])
      obtain ⟨v1, v2, v3, v4⟩ := this
      exact ⟨v1, v1, v2, v3, rfl⟩
  · rw [didChangeIno, if_neg hmem] at h
    cases h

/-- A trivial concrete mapper for exercising `didChangeIno`: ranges map
through unchanged and edits are never structurally dirty. -/
def c2Mapper : InoCppMapper Unit :=
  { core := (), version := 1,
    rangeOf := fun _ _ r => some r,
    stepCore := fun _ _ _ => ((), false) }

/-- Concrete handler state for exercising `didChangeIno`. -/
def c2State : ChangeState Unit :=
  { docs := ["/sk/a.ino"], mapper := c2Mapper, buildSketchSymbols := [],
    rebuildScheduled := false, buildSketchCpp := "/b/sketch/S.ino.cpp",
    mirror := id }

/-- First concrete content change. -/
def c2ChangeA : TextChange := ⟨⟨⟨0, 0⟩, ⟨0, 0⟩⟩, none, "x"⟩

/-- Second concrete content change. -/
def c2ChangeB : TextChange := ⟨⟨⟨1, 0⟩, ⟨1, 0⟩⟩, none, "y"⟩

/-- Counterexample to claim C2 as stated: a single inbound `didChange`
carrying two content changes increments the synthetic unit's version by
two, not by one — starting from version 1 the forwarded notification
carries version 3, while the claim (version incremented by exactly 1
regardless of how many content changes the notification carries) demands
version 2. -/
theorem c2_counterexample :
    (didChangeIno c2State "/sk/a.ino" 2 [c2ChangeA, c2ChangeB]).map
        (fun r => r.1.version) = some 3 ∧
    c2State.mapper.version = 1 ∧ (3 : Int) ≠ 1 + 1 :=
  ⟨rfl, rfl, by decide⟩

/-- Witness for C2 (amended) at a concrete input: a `didChange` with two
changes on a tracked `.ino` document forwards all two changes at version
initial + 2. -/
theorem c2_version_per_change_witness :
    pathExt "/sk/a.ino" = ".ino" ∧
    (didChangeIno c2State "/sk/a.ino" 2
        [c2ChangeA, c2ChangeB]).isSome = true ∧
    ({ uri := "/b/sketch/S.ino.cpp", version := 3,
       changes := [c2ChangeA, c2ChangeB] } : CppDidChange).version =
      c2State.mapper.version + 2 := by
  have h : didChangeIno c2State "/sk/a.ino" 2 [c2ChangeA, c2ChangeB] =
      some ({ uri := "/b/sketch/S.ino.cpp", version := 3,
              changes := [c2ChangeA, c2ChangeB] },
            { c2State with
                mapper := { c2Mapper with version := 3 } }) := rfl
  have := c2_version_per_change c2State "/sk/a.ino" 2
    [c2ChangeA, c2ChangeB] _ rfl h
  exact ⟨rfl, by rw [h]; rfl, by simpa using this.1⟩

/-! ## Diagnostics fan-out (handler.go lines 1402-1446 and 1519-1587) -/

/-- An LSP diagnostic: its range and its code (the only fields the
handler inspects). -/
structure Diag where
  range : Rng
  code : String
deriving DecidableEq, Repr

/-- A `publishDiagnostics` payload: target URI and diagnostics list. -/
structure DiagBatch where
  uri : String
  diags : List Diag
deriving DecidableEq, Repr

/-- Modelled from the spec: the sentinel URI for generated-prototype lines
of the synthetic unit (`sourcemapper.NotIno.File` / `sourcemapper.NotInoURI`,
both collapsed to one sentinel string here). -/
def notInoURI : String := "/not-ino"

/-- Does `s` start with `pre`?  (Character-level model of Go
`strings.HasPrefix` / Lean `String.startsWith`, kept structurally
recursive so concrete instances evaluate.) -/
def strStarts (pre s : String) : Bool :=
  List.isPrefixOf pre.data s.data

/-- `dir` contains `path`.
Modelled from the spec: `paths.Path.IsInsideDir` of the external
go-paths-helper package, on cleaned absolute paths (the error return for
relative-path mixtures is not reachable with the absolute URIs used
here). -/
def isInsideDir (dir path : String) : Bool :=
  strStarts (dir ++ "/") path

/-- The path of `path` relative to `dir` (assuming `isInsideDir`).
Modelled from the spec: `paths.Path.RelTo` of the external
go-paths-helper package. -/
def relToDir (dir path : String) : String :=
  String.mk (path.data.drop (dir.length + 1))

/-- The environment consumed by the clangd→IDE translation:
workbench paths, the tracked-document key set, and the source mapper's
`CppToInoRangeOk` (modelled from the spec as an oracle; the handler treats
its `AdjustedRangeErr` variant as success, which is folded into `some`
here). -/
structure DiagEnv where
  buildSketchCpp : String
  buildSketchRoot : String
  sketchRoot : String
  docs : List String
  mapperCppToIno : Rng → Option (String × Rng)

/-- `handler.inoDocumentURIFromInoPath` (handler.go lines 889-904): the
sentinel passes through; a tracked path resolves to its document URI
(canonical keys mean the URI is the path itself here); anything else is
the `unknownURI` error. -/
def inoDocumentURIFromInoPath (env : DiagEnv) (p : String) : Option String :=
  if p = notInoURI then some notInoURI
  else if p ∈ env.docs then some p
  else none

/-- `handler.cpp2inoDocumentURI` (handler.go lines 906-950): the synthetic
unit resolves through the source mapper and the tracked documents; a file
inside the build sketch root is mirrored back into the sketch; anything
else passes through unchanged. -/
def cpp2inoDocumentURI (env : DiagEnv) (cppURI : String) (cppRange : Rng) :
    Option (String × Rng) :=
  if cppURI = env.buildSketchCpp then
    match env.mapperCppToIno cppRange with
    | none => none
    | some p =>
      match inoDocumentURIFromInoPath env p.1 with
      | none => none
      | some u => some (u, p.2)
  else if isInsideDir env.buildSketchRoot cppURI then
    some (env.sketchRoot ++ "/" ++ relToDir env.buildSketchRoot cppURI,
      cppRange)
  else some (cppURI, cppRange)

/-- Append a diagnostic to its URI's batch, creating the batch on first
sight (the Go code buckets into a map; batches are kept here in
first-seen order, which no claim depends on since Go map iteration order
is unspecified). -/
def addDiagToBatches (batches : List DiagBatch) (u : String) (d : Diag) :
    List DiagBatch :=
  match batches with
  | [] => [⟨u, [d]⟩]
  | b :: rest =>
    if b.uri = u then ⟨u, b.diags ++ [d]⟩ :: rest
    else b :: addDiagToBatches rest u d

/-- The bucketing loop of `handler.cpp2inoDiagnostics` (handler.go lines
1420-1439): each diagnostic is mapped through `cpp2inoDocumentURI` (an
error aborts the whole translation) and appended to its URI's batch with
its range rewritten. -/
def bucketDiags (env : DiagEnv) (cppURI : String) :
    List Diag → List DiagBatch → Option (List DiagBatch)
  | [], acc => some acc
  | d :: rest, acc =>
    match cpp2inoDocumentURI env cppURI d.range with
    | none => none
    | some p =>
      bucketDiags env cppURI rest
        (addDiagToBatches acc p.1 { d with range := p.2 })

/-- `handler.cpp2inoDiagnostics` (handler.go lines 1402-1446): an empty
batch on the synthetic unit yields no batches; an empty batch elsewhere
yields a single empty batch at the mapped URI; otherwise diagnostics are
bucketed per mapped URI. -/
def cpp2inoDiagnostics (env : DiagEnv) (cppURI : String)
    (diags : List Diag) : Option (List DiagBatch) :=
  if diags = [] then
    if cppURI = env.buildSketchCpp then some []
    else
      match cpp2inoDocumentURI env cppURI nilRange with
      | none => none
      | some p => some [⟨p.1, []⟩]
  else bucketDiags env cppURI diags []

/-- Does a diagnostic carry one of the undeclared-variable codes that
raise the symbols-check flag? -/
def diagTrigger (d : Diag) : Bool :=
  d.code = "undeclared_var_use_suggest" || d.code = "undeclared_var_use"

/-- Set insertion for the `inoDocsWithDiagnostics` map key set. -/
def insertUri (u : String) (l : List String) : List String :=
  if u ∈ l then l else u :: l

/-- Result of the per-batch loop of `FromClangd`'s `publishDiagnostics`
case (handler.go lines 1538-1565): the batches published to the IDE in
order, the new `.ino`-documents-with-diagnostics key set, the
`cleanUpInoDiagnostics` contribution, and the symbols-check trigger. -/
structure FanOutRes where
  published : List DiagBatch
  newSet : List String
  cleanUp : Bool
  trigger : Bool
deriving DecidableEq, Repr

/-- The per-batch loop of `FromClangd`'s `publishDiagnostics` case
(handler.go lines 1538-1565): sentinel batches are skipped but raise the
clean-up flag; `.ino` batches are published, recorded in the new set,
raise the clean-up flag and may raise the symbols-check trigger; other
batches are published as-is. -/
def fanOut : List DiagBatch → FanOutRes
  | [] => ⟨[], [], false, false⟩
  | b :: rest =>
    let q := fanOut rest
    if b.uri = notInoURI then { q with cleanUp := true }
    else if pathExt b.uri = ".ino" then
      { published := b :: q.published,
        newSet := insertUri b.uri q.newSet,
        cleanUp := true,
        trigger := q.trigger || b.diags.any diagTrigger }
    else { q with published := b :: q.published }

/-- The diagnostics-related handler state: the key set of
`handler.inoDocsWithDiagnostics` and `handler.buildSketchSymbolsCheck`. -/
structure DiagState where
  inoDocsWithDiagnostics : List String
  symbolsCheck : Bool
deriving DecidableEq, Repr

/-- The `publishDiagnostics` case of `InoHandler.FromClangd` (handler.go
lines 1519-1587): translate, publish fresh batches, then — only when the
clean-up flag was raised (no batches, a sentinel batch, or some `.ino`
batch) — publish an empty batch for every previously reported `.ino`
document that received no fresh batch and overwrite the stored set.
Returns the batches sent to the IDE in order and the new state. -/
def publishDiagsFromClangd (env : DiagEnv) (st : DiagState)
    (cppURI : String) (diags : List Diag) :
    Option (List DiagBatch × DiagState) :=
  match cpp2inoDiagnostics env cppURI diags with
  | none => none
  | some batches =>
    let f := fanOut batches
    let cleanUp := batches.isEmpty || f.cleanUp
    let symCheck := st.symbolsCheck || f.trigger
    if cleanUp then
      some (f.published ++
        (st.inoDocsWithDiagnostics.filter
          (fun u => ¬ u ∈ f.newSet)).map (fun u => ⟨u, []⟩),
        ⟨f.newSet, symCheck⟩)
    else some (f.published, ⟨st.inoDocsWithDiagnostics, symCheck⟩)

theorem mem_insertUri_self (u : String) (l : List String) :
    u ∈ insertUri u l := by
  simp only [insertUri]
  split
  · assumption
  · exact List.mem_cons_self u l

theorem mem_insertUri_of_mem (u v : String) (l : List String)
    (h : u ∈ l) : u ∈ insertUri v l := by
  simp only [insertUri]
  split
  · exact h
  · exact List.mem_cons_of_mem v h

theorem mem_of_mem_insertUri (u v : String) (l : List String)
    (h : u ∈ insertUri v l) : u = v ∨ u ∈ l := by
  simp only [insertUri] at h
  split at h
  · exact Or.inr h
  · exact List.mem_cons.mp h

theorem fanOut_published_mem (l : List DiagBatch) :
    ∀ b ∈ (fanOut l).published, b ∈ l ∧ b.uri ≠ notInoURI ∧
      (pathExt b.uri = ".ino" → b.uri ∈ (fanOut l).newSet) := by
  induction l with
  | nil => intro b hb; simp [fanOut] at hb
  | cons a rest ih =>
    intro b hb
    by_cases h1 : a.uri = notInoURI
    · rw [show fanOut (a :: rest) =
          { fanOut rest with cleanUp := true } from by
        simp [fanOut, h1]] at hb ⊢
      obtain ⟨m1, m2, m3⟩ := ih b hb
      exact ⟨List.mem_cons_of_mem a m1, m2, m3⟩
    · by_cases h2 : pathExt a.uri = ".ino"
      · rw [show fanOut (a :: rest) =
            { published := a :: (fanOut rest).published,
              newSet := insertUri a.uri (fanOut rest).newSet,
              cleanUp := true,
              trigger := (fanOut rest).trigger ||
                a.diags.any diagTrigger } from by
          simp [fanOut, h1, h2]] at hb ⊢
      -- hb : b ∈ a :: (fanOut rest).published
        rcases List.mem_cons.mp hb with hba | hbr
        · subst hba
          exact ⟨List.mem_cons_self b rest, h1,
            fun _ => mem_insertUri_self b.uri _⟩
        · obtain ⟨m1, m2, m3⟩ := ih b hbr
          exact ⟨List.mem_cons_of_mem a m1, m2,
            fun hino => mem_insertUri_of_mem _ _ _ (m3 hino)⟩
      · rw [show fanOut (a :: rest) =
            { fanOut rest with
              published := a :: (fanOut rest).published } from by
          simp [fanOut, h1, h2]] at hb ⊢
        rcases List.mem_cons.mp hb with hba | hbr
        · subst hba
          exact ⟨List.mem_cons_self b rest, h1, fun hino => absurd hino h2⟩
        · obtain ⟨m1, m2, m3⟩ := ih b hbr
          exact ⟨List.mem_cons_of_mem a m1, m2, m3⟩

theorem fanOut_newSet_mem (l : List DiagBatch) :
    ∀ u ∈ (fanOut l).newSet,
      ∃ b, b ∈ (fanOut l).published ∧ b.uri = u := by
  induction l with
  | nil => intro u hu; simp [fanOut] at hu
  | cons a rest ih =>
    intro u hu
    by_cases h1 : a.uri = notInoURI
    · rw [show fanOut (a :: rest) =
          { fanOut rest with cleanUp := true } from by
        simp [fanOut, h1]] at hu ⊢
      exact ih u hu
    · by_cases h2 : pathExt a.uri = ".ino"
      · rw [show fanOut (a :: rest) =
            { published := a :: (fanOut rest).published,
              newSet := insertUri a.uri (fanOut rest).newSet,
              cleanUp := true,
              trigger := (fanOut rest).trigger ||
                a.diags.any diagTrigger } from by
          simp [fanOut, h1, h2]] at hu ⊢
        rcases mem_of_mem_insertUri u a.uri _ hu with hua | hur
        · exact ⟨a, List.mem_cons_self a _, hua.symm⟩
        · obtain ⟨b, hb, hbu⟩ := ih u hur
          exact ⟨b, List.mem_cons_of_mem a hb, hbu⟩
      · rw [show fanOut (a :: rest) =
            { fanOut rest with
              published := a :: (fanOut rest).published } from by
          simp [fanOut, h1, h2]] at hu ⊢
        obtain ⟨b, hb, hbu⟩ := ih u hu
        exact ⟨b, List.mem_cons_of_mem a hb, hbu⟩

theorem fanOut_cleanUp_true (l : List DiagBatch)
    (h : ∃ b ∈ l, b.uri = notInoURI ∨ pathExt b.uri = ".ino") :
    (fanOut l).cleanUp = true := by
  induction l with
  | nil => simp at h
  | cons a rest ih =>
    by_cases h1 : a.uri = notInoURI
    · simp [fanOut, h1]
    · by_cases h2 : pathExt a.uri = ".ino"
      · simp [fanOut, h1, h2]
      · have hrest : ∃ b ∈ rest, b.uri = notInoURI ∨
            pathExt b.uri = ".ino" := by
          obtain ⟨b, hb, hor⟩ := h
          rcases List.mem_cons.mp hb with hba | hbr
          · subst hba
            rcases hor with hx | hx
            · exact absurd hx h1
            · exact absurd hx h2
          · exact ⟨b, hbr, hor⟩
        rw [show fanOut (a :: rest) =
            { fanOut rest with
              published := a :: (fanOut rest).published } from by
          simp [fanOut, h1, h2]]
        exact ih hrest

/-- Claim C3 (amended): the stale-diagnostics clearing pass and the
overwrite of `ino_docs_with_diagnostics` run only when the clean-up flag
was raised — no translated batches at all, a sentinel (generated-line)
batch, or some `.ino` batch; a nonempty notification whose batches are
all non-`.ino` regular files leaves the set and the stale diagnostics
untouched.  When every batch targets the sentinel or a `.ino` document
(as is the case for diagnostics on the synthetic unit), the claim's
description holds: fresh batches are published, every URI of the previous
set without a fresh batch receives an empty batch, the set is overwritten
with the new set, and the published URIs are exactly the union of the new
and previous sets with the stale ones empty. -/
theorem c3_stale_clearing (env : DiagEnv) (st : DiagState)
    (cppURI : String) (diags : List Diag) (batches : List DiagBatch)
    (hb : cpp2inoDiagnostics env cppURI diags = some batches)
    (hscope : ∀ b ∈ batches, b.uri = notInoURI ∨ pathExt b.uri = ".ino") :
    ∃ pub st2,
      publishDiagsFromClangd env st cppURI diags = some (pub, st2) ∧
      st2.inoDocsWithDiagnostics = (fanOut batches).newSet ∧
      pub = (fanOut batches).published ++
        (st.inoDocsWithDiagnostics.filter
          (fun u => ¬ u ∈ (fanOut batches).newSet)).map
          (fun u => DiagBatch.mk u []) ∧
      (∀ u, (∃ b ∈ pub, b.uri = u) ↔
        (u ∈ (fanOut batches).newSet ∨
         u ∈ st.inoDocsWithDiagnostics)) ∧
      (∀ b ∈ pub, b.uri ∈ st.inoDocsWithDiagnostics →
        ¬ b.uri ∈ (fanOut batches).newSet → b.diags = []) := by
  have hcu : (batches.isEmpty || (fanOut batches).cleanUp) = true := by
    rcases batches with _ | ⟨a, rest⟩
    · rfl
    · have := fanOut_cleanUp_true (a :: rest)
        ⟨a, List.mem_cons_self a rest,
          hscope a (List.mem_cons_self a rest)⟩
      simp [this]
  refine ⟨(fanOut batches).published ++
      (st.inoDocsWithDiagnostics.filter
        (fun u => ¬ u ∈ (fanOut batches).newSet)).map
        (fun u => DiagBatch.mk u []),
    ⟨(fanOut batches).newSet, st.symbolsCheck || (fanOut batches).trigger⟩,
    ?_, rfl, rfl, ?_, ?_⟩
  · simp only [publishDiagsFromClangd, hb, hcu]
    try simp
    try rfl
  · intro u
    constructor
    · rintro ⟨b, hbmem, rfl⟩
      rcases List.mem_append.mp hbmem with hpub | hstale
      · obtain ⟨m1, m2, m3⟩ := fanOut_published_mem batches b hpub
        rcases hscope b m1 with hx | hx
        · exact absurd hx m2
        · exact Or.inl (m3 hx)
      · obtain ⟨v, hv, hveq⟩ := List.mem_map.mp hstale
        have := List.mem_filter.mp hv
        rw [← hveq]
        exact Or.inr this.1
    · rintro (hnew | hprev)
      · obtain ⟨b, hbp, hbu⟩ := fanOut_newSet_mem batches u hnew
        exact ⟨b, List.mem_append.mpr (Or.inl hbp), hbu⟩
      · by_cases hn : u ∈ (fanOut batches).newSet
        · obtain ⟨b, hbp, hbu⟩ := fanOut_newSet_mem batches u hn
          exact ⟨b, List.mem_append.mpr (Or.inl hbp), hbu⟩
        · refine ⟨DiagBatch.mk u [], List.mem_append.mpr (Or.inr ?_), rfl⟩
          exact List.mem_map.mpr ⟨u,
            List.mem_filter.mpr ⟨hprev, by simpa using hn⟩, rfl⟩
  · intro b hbmem hprev hnot
    rcases List.mem_append.mp hbmem with hpub | hstale
    · obtain ⟨m1, m2, m3⟩ := fanOut_published_mem batches b hpub
      rcases hscope b m1 with hx | hx
      · exact absurd hx m2
      · exact absurd (m3 hx) hnot
    · obtain ⟨v, _, hveq⟩ := List.mem_map.mp hstale
      rw [← hveq]

/-- Environment for the C3 counterexample: the incoming notification
targets a regular file outside the build tree. -/
def c3Env : DiagEnv :=
  { buildSketchCpp := "/build/sketch/S.ino.cpp",
    buildSketchRoot := "/build/sketch",
    sketchRoot := "/sk",
    docs := ["/sk/a.ino"],
    mapperCppToIno := fun _ => none }

/-- Handler state for the C3 counterexample: `/sk/a.ino` was previously
reported as having diagnostics. -/
def c3State : DiagState := ⟨["/sk/a.ino"], false⟩

/-- The diagnostic of the C3 counterexample. -/
def c3Diag : Diag := ⟨nilRange, "some_error"⟩

/-- Counterexample to claim C3 as stated: a clangd `publishDiagnostics`
for `/other/foo.cpp` (a passthrough file, not the synthetic unit) with a
nonempty diagnostics list publishes only that file's batch; the
previously reported `/sk/a.ino` receives no empty batch and
`ino_docs_with_diagnostics` is not overwritten (it still contains
`/sk/a.ino` although the fresh `.ino` set is empty), so the claim's
unconditional clearing and overwrite fail. -/
theorem c3_counterexample :
    publishDiagsFromClangd c3Env c3State "/other/foo.cpp" [c3Diag] =
      some ([⟨"/other/foo.cpp", [c3Diag]⟩], ⟨["/sk/a.ino"], false⟩) ∧
    "/sk/a.ino" ∈ c3State.inoDocsWithDiagnostics ∧
    (∀ b ∈ [DiagBatch.mk "/other/foo.cpp" [c3Diag]],
      b.uri ≠ "/sk/a.ino") ∧
    (⟨["/sk/a.ino"], false⟩ : DiagState).inoDocsWithDiagnostics ≠ [] := by
  refine ⟨?_, ?_, ?_, ?_⟩ <;> first | rfl | decide

/-- Environment for the C3 witness: a diagnostic on the synthetic unit
mapping into the tracked `/sk/a.ino`. -/
def c3WEnv : DiagEnv :=
  { buildSketchCpp := "/build/sketch/S.ino.cpp",
    buildSketchRoot := "/build/sketch",
    sketchRoot := "/sk",
    docs := ["/sk/a.ino"],
    mapperCppToIno := fun r => some ("/sk/a.ino", r) }

/-- Handler state for the C3 witness: `/sk/b.ino` was previously
reported. -/
def c3WState : DiagState := ⟨["/sk/b.ino"], false⟩

/-- Witness for C3 (amended) at a concrete input: a synthetic-unit
diagnostic mapping to `/sk/a.ino` is published, the stale `/sk/b.ino`
receives an empty batch, and the set is overwritten with
`["/sk/a.ino"]`. -/
theorem c3_stale_clearing_witness :
    ∃ pub st2,
      publishDiagsFromClangd c3WEnv c3WState "/build/sketch/S.ino.cpp"
        [c3Diag] = some (pub, st2) ∧
      st2.inoDocsWithDiagnostics = ["/sk/a.ino"] ∧
      DiagBatch.mk "/sk/b.ino" [] ∈ pub := by
  obtain ⟨pub, st2, h1, h2, h3, h4, h5⟩ :=
    c3_stale_clearing c3WEnv c3WState "/build/sketch/S.ino.cpp" [c3Diag]
      [⟨"/sk/a.ino", [c3Diag]⟩] rfl (by decide)
  refine ⟨pub, st2, h1, ?_, ?_⟩
  · rw [h2]; rfl
  · rw [h3]; decide

/-- Claim C10: a diagnostics batch mapped to the sentinel not-ino URI is
never published to the IDE — nothing the fan-out loop publishes carries
the sentinel URI, and (provided the stored set never contains the
sentinel, which holds since only `.ino` URIs are stored) neither do the
stale-clearing batches; yet the presence of such a batch raises the
clean-up flag, so the stale-diagnostics clearing pass still runs: every
previously reported document without a fresh batch receives an empty
batch and the set is overwritten. -/
theorem c10_notino_skipped :
    (∀ l, ∀ b ∈ (fanOut l).published, b.uri ≠ notInoURI) ∧
    (∀ (env : DiagEnv) (st : DiagState) (cppURI : String)
       (diags : List Diag) (batches : List DiagBatch),
      cpp2inoDiagnostics env cppURI diags = some batches →
      (∃ b ∈ batches, b.uri = notInoURI) →
      ¬ notInoURI ∈ st.inoDocsWithDiagnostics →
      ∃ pub st2,
        publishDiagsFromClangd env st cppURI diags = some (pub, st2) ∧
        st2.inoDocsWithDiagnostics = (fanOut batches).newSet ∧
        (∀ u ∈ st.inoDocsWithDiagnostics,
          ¬ u ∈ (fanOut batches).newSet → DiagBatch.mk u [] ∈ pub) ∧
        (∀ b ∈ pub, b.uri ≠ notInoURI)) := by
  constructor
  · intro l b hb
    exact (fanOut_published_mem l b hb).2.1
  · intro env st cppURI diags batches hb hex hsent
    have hcu : (batches.isEmpty || (fanOut batches).cleanUp) = true := by
      have := fanOut_cleanUp_true batches
        (by obtain ⟨b, hbm, hbu⟩ := hex; exact ⟨b, hbm, Or.inl hbu⟩)
      simp [this]
    refine ⟨(fanOut batches).published ++
        (st.inoDocsWithDiagnostics.filter
          (fun u => ¬ u ∈ (fanOut batches).newSet)).map
          (fun u => DiagBatch.mk u []),
      ⟨(fanOut batches).newSet,
        st.symbolsCheck || (fanOut batches).trigger⟩,
      ?_, rfl, ?_, ?_⟩
    · simp only [publishDiagsFromClangd, hb, hcu]
      try simp
      try rfl
    · intro u hu hun
      refine List.mem_append.mpr (Or.inr ?_)
      exact List.mem_map.mpr ⟨u,
        List.mem_filter.mpr ⟨hu, by simpa using hun⟩, rfl⟩
    · intro b hbm
      rcases List.mem_append.mp hbm with hpub | hstale
      · exact (fanOut_published_mem batches b hpub).2.1
      · obtain ⟨v, hv, hveq⟩ := List.mem_map.mp hstale
        have hvprev := (List.mem_filter.mp hv).1
        rw [← hveq]
        intro hcontra
        have hv2 : v = notInoURI := hcontra
        rw [hv2] at hvprev
        exact hsent hvprev

/-- Environment for the C10 witness: the synthetic-unit diagnostic maps
to the sentinel (a generated-prototype line). -/
def c10Env : DiagEnv :=
  { buildSketchCpp := "/build/sketch/S.ino.cpp",
    buildSketchRoot := "/build/sketch",
    sketchRoot := "/sk",
    docs := ["/sk/a.ino"],
    mapperCppToIno := fun r => some (notInoURI, r) }

/-- Witness for C10 at a concrete input: a sentinel-mapped diagnostic is
not published, but the previously reported `/sk/a.ino` is cleared with an
empty batch and the stored set becomes empty. -/
theorem c10_notino_skipped_witness :
    (∀ b ∈ (fanOut [DiagBatch.mk notInoURI [c3Diag]]).published,
      b.uri ≠ notInoURI) ∧
    (∃ pub st2,
      publishDiagsFromClangd c10Env ⟨["/sk/a.ino"], false⟩
        "/build/sketch/S.ino.cpp" [c3Diag] = some (pub, st2) ∧
      st2.inoDocsWithDiagnostics =
        (fanOut [DiagBatch.mk notInoURI [c3Diag]]).newSet ∧
      DiagBatch.mk "/sk/a.ino" [] ∈ pub) := by
  constructor
  · exact c10_notino_skipped.1 [DiagBatch.mk notInoURI [c3Diag]]
  · obtain ⟨pub, st2, h1, h2, h3, h4⟩ :=
      c10_notino_skipped.2 c10Env ⟨["/sk/a.ino"], false⟩
        "/build/sketch/S.ino.cpp" [c3Diag]
        [DiagBatch.mk notInoURI [c3Diag]] rfl
        ⟨DiagBatch.mk notInoURI [c3Diag], by decide, rfl⟩ (by decide)
    exact ⟨pub, st2, h1, h2, h3 "/sk/a.ino" (by decide) (by decide)⟩

/-! ## documentSymbol translation (handler.go lines 1337-1375) -/

/-- An LSP `DocumentSymbol` (the fields the handler copies or inspects),
with recursive children. -/
inductive DocumentSymbol where
  | mk (name detail : String) (kind : Nat) (deprecated : Bool)
      (range selectionRange : Rng) (children : List DocumentSymbol)
deriving Repr

/-- The symbol's name. -/
def DocumentSymbol.name : DocumentSymbol → String
  | .mk n _ _ _ _ _ _ => n

/-- The symbol's detail string. -/
def DocumentSymbol.detail : DocumentSymbol → String
  | .mk _ d _ _ _ _ _ => d

/-- The symbol's kind (`lsp.SymbolKind` numeric code). -/
def DocumentSymbol.kind : DocumentSymbol → Nat
  | .mk _ _ k _ _ _ _ => k

/-- The symbol's deprecated flag. -/
def DocumentSymbol.deprecated : DocumentSymbol → Bool
  | .mk _ _ _ dep _ _ _ => dep

/-- The symbol's full range. -/
def DocumentSymbol.range : DocumentSymbol → Rng
  | .mk _ _ _ _ r _ _ => r

/-- The symbol's selection range. -/
def DocumentSymbol.selectionRange : DocumentSymbol → Rng
  | .mk _ _ _ _ _ sr _ => sr

/-- The symbol's children. -/
def DocumentSymbol.children : DocumentSymbol → List DocumentSymbol
  | .mk _ _ _ _ _ _ ch => ch

/-- Modelled from the spec: the source-mapper queries consumed by the
documentSymbol translation — `IsPreprocessedCppLine` (is the line a
generated prototype?) and the total `CppToInoRange` (the owning `.ino`
file path and translated range). -/
structure SymMapper where
  isPreprocessed : Nat → Bool
  cppToIno : Rng → String × Rng

mutual

/-- `handler.cpp2inoDocumentSymbols` (handler.go lines 1337-1375): for a
non-`.ino` request or an empty list the symbols pass through unchanged;
otherwise each symbol is dropped when its range starts on a
generated-prototype line, when its range and selection range map to
different `.ino` files, or when it maps to a `.ino` file other than the
requested one, and surviving symbols are translated with their children
filtered recursively.  (`origURI.Unbox()` is the URI's path, which is the
URI string in this embedding.) -/
def cpp2inoDocumentSymbols (m : SymMapper) (uri : String)
    (syms : List DocumentSymbol) : List DocumentSymbol :=
  if pathExt uri ≠ ".ino" ∨ syms.isEmpty = true then syms
  else cpp2inoSymbolList m uri syms

/-- The per-symbol loop of `cpp2inoDocumentSymbols`. -/
def cpp2inoSymbolList (m : SymMapper) (uri : String) :
    List DocumentSymbol → List DocumentSymbol
  | [] => []
  | DocumentSymbol.mk n d k dep r sr ch :: rest =>
    if m.isPreprocessed r.start.line then cpp2inoSymbolList m uri rest
    else if (m.cppToIno r).1 ≠ (m.cppToIno sr).1 then
      cpp2inoSymbolList m uri rest
    else if (m.cppToIno r).1 ≠ uri then cpp2inoSymbolList m uri rest
    else
      DocumentSymbol.mk n d k dep (m.cppToIno r).2 (m.cppToIno sr).2
          (cpp2inoDocumentSymbols m uri ch) ::
        cpp2inoSymbolList m uri rest

end

/-- Does the translation keep this symbol?  (The drop conditions of
handler.go lines 1344-1361, combined.) -/
def keepSymbol (m : SymMapper) (uri : String) (s : DocumentSymbol) : Bool :=
  !(m.isPreprocessed s.range.start.line) &&
  ((m.cppToIno s.range).1 == (m.cppToIno s.selectionRange).1) &&
  ((m.cppToIno s.range).1 == uri)

/-- The translated form of a kept symbol: ranges rewritten to `.ino`
coordinates and children filtered recursively. -/
def translateSymbol (m : SymMapper) (uri : String) (s : DocumentSymbol) :
    DocumentSymbol :=
  DocumentSymbol.mk s.name s.detail s.kind s.deprecated
    (m.cppToIno s.range).2 (m.cppToIno s.selectionRange).2
    (cpp2inoDocumentSymbols m uri s.children)

theorem cpp2inoSymbolList_eq_filterMap (m : SymMapper) (uri : String)
    (l : List DocumentSymbol) :
    cpp2inoSymbolList m uri l =
      (l.filter (keepSymbol m uri)).map (translateSymbol m uri) := by
  induction l with
  | nil => simp [cpp2inoSymbolList]
  | cons a rest ih =>
    rcases a with ⟨n, d, k, dep, r, sr, ch⟩
    by_cases h1 : m.isPreprocessed r.start.line
    · have hk : keepSymbol m uri (DocumentSymbol.mk n d k dep r sr ch) =
          false := by
        simp [keepSymbol, DocumentSymbol.range, h1]
      simp [cpp2inoSymbolList, h1, hk, ih]
    · by_cases h2 : (m.cppToIno r).1 = (m.cppToIno sr).1
      · by_cases h3 : (m.cppToIno r).1 = uri
        · have hk : keepSymbol m uri
              (DocumentSymbol.mk n d k dep r sr ch) = true := by
            simp only [keepSymbol, DocumentSymbol.range,
              DocumentSymbol.selectionRange, Bool.and_eq_true,
              Bool.not_eq_true', beq_iff_eq]
            exact ⟨⟨by simpa using h1, h2⟩, h3⟩
          simp only [cpp2inoSymbolList, if_neg h1]
          rw [if_neg (by simpa using h2), if_neg (by simpa using h3)]
          simp [List.filter_cons, hk, ih, translateSymbol,
            DocumentSymbol.name, DocumentSymbol.detail,
            DocumentSymbol.kind, DocumentSymbol.deprecated,
            DocumentSymbol.range, DocumentSymbol.selectionRange,
            DocumentSymbol.children]
        · have hk : keepSymbol m uri
              (DocumentSymbol.mk n d k dep r sr ch) = false := by
            simp [keepSymbol, DocumentSymbol.range,
              DocumentSymbol.selectionRange, h3]
          simp only [cpp2inoSymbolList, if_neg h1]
          rw [if_neg (by simpa using h2), if_pos (by simpa using h3)]
          simp [List.filter_cons, hk, ih]
      · have hk : keepSymbol m uri
            (DocumentSymbol.mk n d k dep r sr ch) = false := by
          simp [keepSymbol, DocumentSymbol.range,
            DocumentSymbol.selectionRange, h2]
        simp only [cpp2inoSymbolList, if_neg h1]
        rw [if_pos (by simpa using h2)]
        simp [List.filter_cons, hk, ih]

/-- Claim C4: for a `.ino` documentSymbol request, the translation keeps
exactly the symbols that do not start on a generated-prototype
(preprocessed) line, whose range and selection range map to the same
`.ino` file, and whose file is the requested one — dropping the others —
and applies the same filtering recursively to each surviving symbol's
children (visible in `translateSymbol`); every returned symbol arises
from such a kept input symbol with its children recursively filtered. -/
theorem c4_document_symbol_filter (m : SymMapper) (uri : String)
    (syms : List DocumentSymbol) (hext : pathExt uri = ".ino") :
    cpp2inoDocumentSymbols m uri syms =
      (syms.filter (keepSymbol m uri)).map (translateSymbol m uri) ∧
    ∀ out ∈ cpp2inoDocumentSymbols m uri syms,
      ∃ s ∈ syms,
        m.isPreprocessed s.range.start.line = false ∧
        (m.cppToIno s.range).1 = (m.cppToIno s.selectionRange).1 ∧
        out = DocumentSymbol.mk s.name s.detail s.kind s.deprecated
          (m.cppToIno s.range).2 (m.cppToIno s.selectionRange).2
          (cpp2inoDocumentSymbols m uri s.children) := by
  have heq : cpp2inoDocumentSymbols m uri syms =
      (syms.filter (keepSymbol m uri)).map (translateSymbol m uri) := by
    rcases syms with _ | ⟨a, rest⟩
    · simp [cpp2inoDocumentSymbols]
    · rw [show cpp2inoDocumentSymbols m uri (a :: rest) =
          cpp2inoSymbolList m uri (a :: rest) from by
        simp [cpp2inoDocumentSymbols, hext]]
      exact cpp2inoSymbolList_eq_filterMap m uri (a :: rest)
  refine ⟨heq, ?_⟩
  intro out hout
  rw [heq] at hout
  obtain ⟨s, hs, hout2⟩ := List.mem_map.mp hout
  have hsf := List.mem_filter.mp hs
  have hkeep := hsf.2
  simp only [keepSymbol, Bool.and_eq_true, Bool.not_eq_eq_eq_not,
    Bool.not_true, beq_iff_eq] at hkeep
  refine ⟨s, hsf.1, ?_, ?_, ?_⟩
  · simpa using hkeep.1.1
  · exact hkeep.1.2
  · rw [← hout2]
    rfl

/-- A concrete mapper for exercising the documentSymbol translation:
line 0 is a generated prototype; ranges starting at line 1 belong to
`/sk/a.ino`, others to `/sk/b.ino`; ranges translate unchanged. -/
def c4Mapper : SymMapper :=
  { isPreprocessed := fun line => line = 0,
    cppToIno := fun r =>
      (if r.start.line = 1 then "/sk/a.ino" else "/sk/b.ino", r) }

/-- A symbol starting on the preprocessed line 0. -/
def c4SymPre : DocumentSymbol :=
  .mk "proto" "" 12 false ⟨⟨0, 0⟩, ⟨0, 5⟩⟩ ⟨⟨0, 0⟩, ⟨0, 5⟩⟩ []

/-- A symbol whose range and selection range map to different files. -/
def c4SymSplit : DocumentSymbol :=
  .mk "split" "" 12 false ⟨⟨1, 0⟩, ⟨2, 0⟩⟩ ⟨⟨2, 0⟩, ⟨2, 5⟩⟩ []

/-- A kept symbol of `/sk/a.ino` with one preprocessed child. -/
def c4SymKept : DocumentSymbol :=
  .mk "setup" "" 12 false ⟨⟨1, 0⟩, ⟨1, 9⟩⟩ ⟨⟨1, 0⟩, ⟨1, 5⟩⟩ [c4SymPre]

/-- Witness for C4 at a concrete input: the preprocessed-line symbol and
the split-range symbol are dropped, the kept symbol survives with its
preprocessed child dropped recursively. -/
theorem c4_document_symbol_filter_witness :
    pathExt "/sk/a.ino" = ".ino" ∧
    cpp2inoDocumentSymbols c4Mapper "/sk/a.ino"
        [c4SymPre, c4SymSplit, c4SymKept] =
      [DocumentSymbol.mk "setup" "" 12 false ⟨⟨1, 0⟩, ⟨1, 9⟩⟩
        ⟨⟨1, 0⟩, ⟨1, 5⟩⟩ []] := by
  have h := c4_document_symbol_filter c4Mapper "/sk/a.ino"
    [c4SymPre, c4SymSplit, c4SymKept] (by decide)
  constructor
  · decide
  rw [h.1]
  simp only [c4SymPre, c4SymSplit, c4SymKept, List.filter, keepSymbol,
    c4Mapper, DocumentSymbol.range, DocumentSymbol.selectionRange]
  simp [translateSymbol, DocumentSymbol.name, DocumentSymbol.detail,
    DocumentSymbol.kind, DocumentSymbol.deprecated,
    DocumentSymbol.range, DocumentSymbol.selectionRange,
    DocumentSymbol.children, cpp2inoDocumentSymbols,
    cpp2inoSymbolList, keepSymbol, c4Mapper]
  all_goals decide

/-! ## Symbol refresh and check (handler.go lines 544-604) -/

/-- A top-level document symbol as cached in
`handler.buildSketchSymbols`: its name and kind (the check compares
names; the refresh filters by kind). -/
structure TopSymbol where
  name : String
  kind : Nat
deriving DecidableEq, Repr

/-- The numeric code of `lsp.SKFunction` (LSP `SymbolKind.Function`). -/
def skFunction : Nat := 12

/-- The index-wise name comparison loop of
`handler.checkCppDocumentSymbols` (handler.go lines 596-602), entered
after the length check: report a mismatch at the first index whose names
differ. -/
def symbolNamesMismatch : List TopSymbol → List TopSymbol → Bool
  | o :: os, n :: ns =>
    if o.name ≠ n.name then true else symbolNamesMismatch os ns
  | _, _ => false

/-- `handler.checkCppDocumentSymbols` (handler.go lines 585-604) given
the previously cached list and the freshly returned clangd symbols:
`refreshCppDocumentSymbols` (lines 544-583) stores the clangd response
filtered to function symbols (the result passes through
`cpp2inoDocumentSymbols` unchanged because the request URI is the
synthetic unit, whose extension is `.cpp`), then a rebuild is scheduled
iff the lengths differ or some index holds a different name.  Returns
(rebuild scheduled?, newly stored list). -/
def checkCppDocumentSymbols (oldSymbols clangdSymbols : List TopSymbol) :
    Bool × List TopSymbol :=
  let newSymbols := clangdSymbols.filter (fun s => s.kind = skFunction)
  (if oldSymbols.length ≠ newSymbols.length then true
   else symbolNamesMismatch oldSymbols newSymbols, newSymbols)

theorem symbolNamesMismatch_spec :
    ∀ o n : List TopSymbol, o.length = n.length →
      (symbolNamesMismatch o n = false ↔
        o.map TopSymbol.name = n.map TopSymbol.name) := by
  intro o
  induction o with
  | nil =>
    intro n hl
    cases n with
    | nil => simp [symbolNamesMismatch]
    | cons b bs => simp at hl
  | cons a as ih =>
    intro n hl
    cases n with
    | nil => simp at hl
    | cons b bs =>
      simp only [List.length_cons, Nat.add_right_cancel_iff] at hl
      by_cases hn : a.name = b.name
      · rw [show symbolNamesMismatch (a :: as) (b :: bs) =
            symbolNamesMismatch as bs from by
          simp [symbolNamesMismatch, hn]]
        rw [ih bs hl]
        simp [hn]
      · rw [show symbolNamesMismatch (a :: as) (b :: bs) = true from by
          simp [symbolNamesMismatch, hn]]
        simp [hn]

/-- Claim C5: the post-request symbols check stores the clangd response
filtered to function symbols and schedules a rebuild exactly when the
previous and new lists differ in length or in some index-wise name —
equivalently, exactly when the name sequences differ; in particular a
permutation that preserves length and every per-index name (i.e. the
identity on names) schedules nothing. -/
theorem c5_symbols_check (oldSymbols clangdSymbols : List TopSymbol) :
    ((checkCppDocumentSymbols oldSymbols clangdSymbols).1 = true ↔
      oldSymbols.map TopSymbol.name ≠
        (clangdSymbols.filter (fun s => s.kind = skFunction)).map
          TopSymbol.name) ∧
    (checkCppDocumentSymbols oldSymbols clangdSymbols).2 =
      clangdSymbols.filter (fun s => s.kind = skFunction) := by
  refine ⟨?_, rfl⟩
  set newSymbols := clangdSymbols.filter (fun s => s.kind = skFunction)
    with hnew
  by_cases hl : oldSymbols.length = newSymbols.length
  · have : (checkCppDocumentSymbols oldSymbols clangdSymbols).1 =
        symbolNamesMismatch oldSymbols newSymbols := by
      simp only [checkCppDocumentSymbols]
      rw [if_neg (by simpa using hl)]
    rw [this]
    have hs := symbolNamesMismatch_spec oldSymbols newSymbols hl
    constructor
    · intro htrue heq
      have : symbolNamesMismatch oldSymbols newSymbols = false :=
        hs.mpr heq
      rw [this] at htrue
      cases htrue
    · intro hne
      by_contra hfalse
      have : symbolNamesMismatch oldSymbols newSymbols = false := by
        revert hfalse
        cases symbolNamesMismatch oldSymbols newSymbols <;> simp
      exact hne (hs.mp this)
  · have : (checkCppDocumentSymbols oldSymbols clangdSymbols).1 = true := by
      simp only [checkCppDocumentSymbols]
      rw [if_pos (by simpa using hl)]
    rw [this]
    simp only [true_iff]
    intro heq
    have := congrArg List.length heq
    simp only [List.length_map] at this
    exact hl this

/-! ## `transformClangdResult`: hover and completion (handler.go lines
1061-1090)

`transformClangdResult` computes
`cppToIno := inoURI != lsp.NilURI && inoURI.AsPath().EquivalentTo(handler.buildSketchCpp)`
— the flag compares the ORIGINAL request URI (`inoURI`) against the
synthetic-unit path, so it is true only when the request itself targeted
the synthetic unit (as the internal `refreshCppDocumentSymbols` call
does), never for a `.ino`-file request, whose path differs from the
`.ino.cpp` path. -/

/-- The result-transformation environment: the synthetic-unit path and
the source mapper's total `CppToInoRange` (modelled from the spec as an
oracle).  `lsp.NilURI` is the empty URI and `EquivalentTo` is equality of
cleaned absolute paths. -/
structure ResultEnv where
  buildSketchCpp : String
  cppToInoRange : Rng → String × Rng

/-- The `cppToIno` flag of `transformClangdResult` (handler.go line
1062). -/
def cppToInoFlag (env : ResultEnv) (inoURI : String) : Bool :=
  (inoURI != "") && (inoURI == env.buildSketchCpp)

/-- An LSP `TextEdit`. -/
structure TextEditL where
  range : Rng
  newText : String
deriving DecidableEq, Repr

/-- An LSP `CompletionItem` (the fields the handler inspects). -/
structure CompletionItem where
  label : String
  insertText : String
  textEdit : Option TextEditL
deriving DecidableEq, Repr

/-- The per-item conversion of the completion branch (handler.go lines
1082-1084): when the `cppToIno` flag is set and the item has a
`TextEdit`, its range is rewritten through the mapper. -/
def transformCompletionItem (env : ResultEnv) (inoURI : String)
    (it : CompletionItem) : CompletionItem :=
  if cppToInoFlag env inoURI = true then
    let newEdit := it.textEdit.map fun te =>
      { te with range := (env.cppToInoRange te.range).2 }
    { it with textEdit := newEdit }
  else it

/-- The completion branch of `transformClangdResult` (handler.go lines
1076-1090): keep, in order, exactly the items whose insert text does not
start with `_`, converting kept items per `transformCompletionItem`. -/
def transformCompletionList (env : ResultEnv) (inoURI : String) :
    List CompletionItem → List CompletionItem
  | [] => []
  | it :: rest =>
    if strStarts "_" it.insertText then
      transformCompletionList env inoURI rest
    else
      transformCompletionItem env inoURI it ::
        transformCompletionList env inoURI rest

/-- An LSP `Hover` result: the markup contents value and the optional
range. -/
structure HoverRes where
  contents : String
  range : Option Rng
deriving DecidableEq, Repr

/-- The hover branch of `transformClangdResult` (handler.go lines
1065-1074): an empty contents value yields a `nil` result; otherwise the
range is rewritten through the mapper only when the `cppToIno` flag is
set (the contents are never touched).  (The Go code dereferences
`*r.Range` when converting; the conversion is modelled on the present
range.) -/
def transformHover (env : ResultEnv) (inoURI : String) (h : HoverRes) :
    Option HoverRes :=
  if h.contents.length = 0 then none
  else if cppToInoFlag env inoURI = true then
    let newRange := h.range.map fun r => (env.cppToInoRange r).2
    some { h with range := newRange }
  else some h

/-- Claim C6 (amended): the returned completion list contains exactly the
clangd items whose insert text does not start with `_`, in their original
order; a surviving item's `TextEdit` range is rewritten only when the
original request URI is itself the synthetic-unit path — for any request
whose URI differs from it (in particular every `.ino` request) the items
pass through with their ranges unchanged. -/
theorem c6_completion_filter (env : ResultEnv) (inoURI : String)
    (items : List CompletionItem) :
    (inoURI ≠ env.buildSketchCpp →
      transformCompletionList env inoURI items =
        items.filter (fun it => !(strStarts "_" it.insertText))) ∧
    (inoURI ≠ "" → inoURI = env.buildSketchCpp →
      transformCompletionList env inoURI items =
        (items.filter (fun it => !(strStarts "_" it.insertText))).map
          (transformCompletionItem env inoURI)) := by
  constructor
  · intro hne
    have hflag : cppToInoFlag env inoURI = false := by
      simp [cppToInoFlag, hne]
    have hid : ∀ it, transformCompletionItem env inoURI it = it := by
      intro it
      simp [transformCompletionItem, hflag]
    induction items with
    | nil => simp [transformCompletionList]
    | cons it rest ih =>
      by_cases hu : strStarts "_" it.insertText
      · simp [transformCompletionList, hu, List.filter_cons, ih]
      · simp [transformCompletionList, hu, List.filter_cons, ih, hid]
  · intro hne heq
    induction items with
    | nil => simp [transformCompletionList]
    | cons it rest ih =>
      by_cases hu : strStarts "_" it.insertText
      · simp [transformCompletionList, hu, List.filter_cons, ih]
      · simp [transformCompletionList, hu, List.filter_cons, ih]

/-- Environment for the C6/C9 concrete inputs: the mapper shifts ranges
down one line (so conversion visibly changes a range). -/
def c6Env : ResultEnv :=
  { buildSketchCpp := "/build/sketch/S.ino.cpp",
    cppToInoRange := fun r =>
      ("/sk/a.ino",
       ⟨⟨r.start.line + 1, r.start.character⟩,
        ⟨r.stop.line + 1, r.stop.character⟩⟩) }

/-- A concrete completion range in synthetic-unit coordinates. -/
def c6Rng : Rng := ⟨⟨5, 0⟩, ⟨5, 4⟩⟩

/-- A concrete completion item with a text edit. -/
def c6Item : CompletionItem :=
  { label := "digitalWrite", insertText := "digitalWrite",
    textEdit := some ⟨c6Rng, "digitalWrite"⟩ }

/-- Counterexample to claim C6 as stated: for the `.ino` request URI
`/sk/a.ino` the surviving item's `TextEdit` range is NOT converted (the
`cppToIno` flag compares `/sk/a.ino` with the synthetic-unit path and
fails), although the mapper's conversion of that range differs from it;
the claim's "each surviving item's TextEdit range is converted" is false
here. -/
theorem c6_counterexample :
    pathExt "/sk/a.ino" = ".ino" ∧
    transformCompletionList c6Env "/sk/a.ino" [c6Item] = [c6Item] ∧
    (c6Env.cppToInoRange c6Rng).2 ≠ c6Rng := by
  refine ⟨by decide, by decide, by decide⟩

/-- Witness for C6 (amended) at concrete inputs: an underscore item is
dropped, a kept item passes through unchanged for a `.ino` request, and
for a request on the synthetic unit itself the range is converted. -/
theorem c6_completion_filter_witness :
    ("/sk/a.ino" ≠ c6Env.buildSketchCpp ∧
      transformCompletionList c6Env "/sk/a.ino"
          [⟨"_hidden", "_hidden", none⟩, c6Item] = [c6Item]) ∧
    ("/build/sketch/S.ino.cpp" ≠ "" ∧
      transformCompletionList c6Env "/build/sketch/S.ino.cpp" [c6Item] =
        [transformCompletionItem c6Env "/build/sketch/S.ino.cpp" c6Item]) := by
  constructor
  · refine ⟨by decide, ?_⟩
    rw [(c6_completion_filter c6Env "/sk/a.ino"
      [⟨"_hidden", "_hidden", none⟩, c6Item]).1 (by decide)]
    decide
  · refine ⟨by decide, ?_⟩
    rw [(c6_completion_filter c6Env "/build/sketch/S.ino.cpp"
      [c6Item]).2 (by decide) rfl]
    decide

/-- Claim C9 (amended): a hover whose contents value is the empty string
returns a null result; a non-empty hover keeps its contents unchanged,
and its range is rewritten only when the original request URI is itself
the synthetic-unit path — for any other request (in particular every
`.ino` request) the hover passes through entirely unchanged. -/
theorem c9_hover_transform (env : ResultEnv) (inoURI : String)
    (h : HoverRes) :
    (h.contents = "" → transformHover env inoURI h = none) ∧
    (h.contents ≠ "" → inoURI ≠ env.buildSketchCpp →
      transformHover env inoURI h = some h) ∧
    (h.contents ≠ "" → inoURI ≠ "" → inoURI = env.buildSketchCpp →
      transformHover env inoURI h =
        some { h with
               range := h.range.map fun r => (env.cppToInoRange r).2 }) := by
  refine ⟨?_, ?_, ?_⟩
  · intro hc
    have : h.contents.length = 0 := by rw [hc]; rfl
    simp [transformHover, this]
  · intro hc hne
    have hlen : h.contents.length ≠ 0 := by
      intro h0
      exact hc (by
        have := congrArg String.mk (List.length_eq_zero.mp h0)
        simpa using this)
    have hflag : cppToInoFlag env inoURI = false := by
      simp [cppToInoFlag, hne]
    simp [transformHover, hlen, hflag]
  · intro hc hne heq
    have hlen : h.contents.length ≠ 0 := by
      intro h0
      exact hc (by
        have := congrArg String.mk (List.length_eq_zero.mp h0)
        simpa using this)
    have hflag : cppToInoFlag env inoURI = true := by
      subst heq
      simp [cppToInoFlag, hne]
    simp [transformHover, hlen, hflag]

/-- A concrete non-empty hover with a range. -/
def c9Hover : HoverRes := ⟨"int x", some c6Rng⟩

/-- Counterexample to claim C9 as stated: for the `.ino` request URI
`/sk/a.ino` a non-empty hover's range is NOT rewritten (the flag
compares the request URI with the synthetic-unit path and fails),
although the conversion of that range differs from it; the claim's "only
the range is rewritten to .ino coordinates" is false here. -/
theorem c9_counterexample :
    pathExt "/sk/a.ino" = ".ino" ∧
    transformHover c6Env "/sk/a.ino" c9Hover = some c9Hover ∧
    (c6Env.cppToInoRange c6Rng).2 ≠ c6Rng := by
  refine ⟨by decide, by decide, by decide⟩

/-- Witness for C9 (amended) at concrete inputs: an empty hover yields
null; a non-empty hover for a `.ino` request passes through unchanged. -/
theorem c9_hover_transform_witness :
    transformHover c6Env "/sk/a.ino" ⟨"", some c6Rng⟩ = none ∧
    transformHover c6Env "/sk/a.ino" c9Hover = some c9Hover := by
  constructor
  · exact (c9_hover_transform c6Env "/sk/a.ino" ⟨"", some c6Rng⟩).1 rfl
  · exact (c9_hover_transform c6Env "/sk/a.ino" c9Hover).2.1
      (by decide) (by decide)

/-! ## Untracked `didClose` (claim C7)

`handler.didClose` returns the `unknownURI` error for an untracked
document, but the error branch of the router
(handler.go lines 254-261: `if res, e := handler.didClose(p); e != nil {}`)
is empty: control falls through and line 419 forwards the ORIGINAL,
untranslated notification to clangd, contradicting the drop-silently
policy.  `didCloseStep` models this fall-through. -/

/-- Claim C7 (code bug, evaluation at the failing input): a `didClose`
for the never-opened `/sk/foo.ino` leaves the tracked-documents map and
the `.ino` count unchanged, but the notification IS forwarded to clangd
(with its untranslated URI) instead of being dropped. -/
theorem c7_untracked_didclose_forwarded :
    didCloseStep ⟨id⟩ ⟨["/sk/other.ino"], 1⟩ "/sk/foo.ino" =
      (⟨["/sk/other.ino"], 1⟩, Forwarded.closeDoc "/sk/foo.ino") ∧
    Forwarded.closeDoc "/sk/foo.ino" ≠ Forwarded.nothing := by
  refine ⟨by decide, by decide⟩

/-! ## Formatter configuration (ls_formatter.go lines 24-251) -/

/-- Modelled from the spec: the filesystem operations of the external
go-paths-helper package used by `createClangdFormatterConfig` —
existence (`Exist`), reading (`ReadFile`, `none` models a read error),
`IsNotDir` and `Parent`. -/
structure FmtFS where
  exist : String → Bool
  read : String → Option String
  isNotDir : String → Bool
  parent : String → String

/-- The baked-in Arduino default `.clang-format` content
(ls_formatter.go lines 30-220, the LLVM-derived style published in
arduino/tooling-project-assets).  The 190-line YAML literal is
abbreviated to its opening lines: the claims depend only on which source
is chosen, never on the text itself. -/
def defaultClangFormat : String :=
  "# Source: https://github.com/arduino/tooling-project-assets/tree/main/other/clang-format-configuration\n---\nAccessModifierOffset: -2\nBasedOnStyle: LLVM\n"

/-- `INOLanguageServer.createClangdFormatterConfig` (ls_formatter.go
lines 24-251): the content starts as the baked-in default; if
`sketch_root/.clang-format` exists it is read (`try` keeps the default
when the read errors); otherwise, if a user formatter config is set and
exists, that one is read; the content is written to `.clang-format` next
to the target (the parent directory when the URI names a file) and the
returned cleanup action removes exactly that file.  Result:
`((written path, written content), path removed by the cleanup)`. -/
def createClangdFormatterConfig (fs : FmtFS) (sketchRoot : String)
    (formatterConf : Option String) (cppuri : String) :
    (String × String) × String :=
  let sketchConf := sketchRoot ++ "/.clang-format"
  let config :=
    if fs.exist sketchConf then
      match fs.read sketchConf with
      | some c => c
      | none => defaultClangFormat
    else
      match formatterConf with
      | some userConf =>
        if fs.exist userConf then
          match fs.read userConf with
          | some c => c
          | none => defaultClangFormat
        else defaultClangFormat
      | none => defaultClangFormat
  let target0 := cppuri
  let target1 := if fs.isNotDir target0 then fs.parent target0 else target0
  let targetFile := target1 ++ "/.clang-format"
  ((targetFile, config), targetFile)

/-- Claim C8: the written `.clang-format` content is chosen in order —
the sketch root's `.clang-format` when that file is present (and reads),
else the user-configured formatter file when present (and reads), else
the baked-in Arduino default — and the returned cleanup action deletes
exactly the file that was written. -/
theorem c8_formatter_config (fs : FmtFS) (sketchRoot : String)
    (formatterConf : Option String) (cppuri : String) :
    ((createClangdFormatterConfig fs sketchRoot formatterConf cppuri).2 =
      (createClangdFormatterConfig fs sketchRoot formatterConf
        cppuri).1.1) ∧
    (∀ c, fs.exist (sketchRoot ++ "/.clang-format") = true →
      fs.read (sketchRoot ++ "/.clang-format") = some c →
      (createClangdFormatterConfig fs sketchRoot formatterConf
        cppuri).1.2 = c) ∧
    (∀ u c, fs.exist (sketchRoot ++ "/.clang-format") = false →
      formatterConf = some u → fs.exist u = true → fs.read u = some c →
      (createClangdFormatterConfig fs sketchRoot formatterConf
        cppuri).1.2 = c) ∧
    (fs.exist (sketchRoot ++ "/.clang-format") = false →
      (formatterConf = none ∨
        ∃ u, formatterConf = some u ∧ fs.exist u = false) →
      (createClangdFormatterConfig fs sketchRoot formatterConf
        cppuri).1.2 = defaultClangFormat) := by
  refine ⟨rfl, ?_, ?_, ?_⟩
  · intro c hex hread
    simp [createClangdFormatterConfig, hex, hread]
  · intro u c hnex hconf hex hread
    simp [createClangdFormatterConfig, hnex, hconf, hex, hread]
  · intro hnex hcase
    rcases hcase with hnone | ⟨u, hconf, huex⟩
    · simp [createClangdFormatterConfig, hnex, hnone]
    · simp [createClangdFormatterConfig, hnex, hconf, huex]

/-- A concrete filesystem for the C8 witness: the sketch root has no
`.clang-format`, the user config `/home/u/fmt.yaml` exists and reads. -/
def c8FS : FmtFS :=
  { exist := fun p => p = "/home/u/fmt.yaml",
    read := fun p =>
      if p = "/home/u/fmt.yaml" then some "UserStyle: yes\n" else none,
    isNotDir := fun _ => true,
    parent := fun _ => "/other/dir" }

/-- Witness for C8 at concrete inputs: with no sketch `.clang-format`
and an existing user config, the user config's content is written, and
the cleanup path equals the written path. -/
theorem c8_formatter_config_witness :
    (createClangdFormatterConfig c8FS "/sk" (some "/home/u/fmt.yaml")
      "/other/dir/file.cpp").2 =
      (createClangdFormatterConfig c8FS "/sk" (some "/home/u/fmt.yaml")
        "/other/dir/file.cpp").1.1 ∧
    (createClangdFormatterConfig c8FS "/sk" (some "/home/u/fmt.yaml")
      "/other/dir/file.cpp").1.2 = "UserStyle: yes\n" := by
  have h := c8_formatter_config c8FS "/sk" (some "/home/u/fmt.yaml")
    "/other/dir/file.cpp"
  exact ⟨h.1, h.2.2.1 "/home/u/fmt.yaml" "UserStyle: yes\n" (by decide)
    rfl (by decide) (by decide)⟩

end ArduinoLS
